import Mathlib

/-!
Shallow embedding of the string-analyzer service (`src/analyzer/views.py`,
`src/analyzer/urls.py`) and proofs about it.  Python strings are represented
as `List Char` (sequences of Unicode code points); the in-memory dict `db`
becomes an insertion-ordered association list; machine-independent Python
integers become `Nat`/`Int`.  Wall-clock data (`created_at`) is outside the
embedding and is omitted; no claim refers to it.
-/

set_option maxHeartbeats 1000000

namespace StringAnalyzer

/-- Python `str.lower` on one character (ASCII case mapping in this embedding;
all case-sensitive comparisons in the service involve ASCII keywords). -/
def pyLowerChar (c : Char) : Char := c.toLower

/-- Python `value.lower()` on a string represented as a list of code points. -/
def pyLower (s : List Char) : List Char := s.map pyLowerChar

/-- Python `int(d)` on a string of decimal digits. -/
def pyIntDigits (s : List Char) : Nat := s.foldl (fun a c => 10 * a + (c.toNat - 48)) 0

/-- Python `int(s)` on a general string: optional sign followed by a nonempty
run of decimal digits (the error branch models `ValueError`). -/
def pyInt (s : List Char) : Option Int :=
  match s with
  | '-' :: ds => if ds ≠ [] ∧ ds.all Char.isDigit then some (-(pyIntDigits ds : Int)) else none
  | '+' :: ds => if ds ≠ [] ∧ ds.all Char.isDigit then some (pyIntDigits ds : Int) else none
  | ds => if ds ≠ [] ∧ ds.all Char.isDigit then some (pyIntDigits ds : Int) else none

/-- Lookup in an association list, as Python dict indexing / `in` test. -/
def assocFind {α β : Type} [DecidableEq α] (k : α) : List (α × β) → Option β
  | [] => none
  | (a, b) :: rest => if a = k then some b else assocFind k rest

/-- One step of the frequency-dictionary build in `compute_string_properties`:
`char_map[char] = char_map.get(char, 0) + 1`, updating in place when the key
is present and appending a fresh key at the end, like a Python dict. -/
def bump (m : List (Char × Nat)) (c : Char) : List (Char × Nat) :=
  match m with
  | [] => [(c, 1)]
  | (k, v) :: rest => if k = c then (k, v + 1) :: rest else (k, v) :: bump rest c

/-- The `for char in value` loop building `char_map`. -/
def charFreq (s : List Char) : List (Char × Nat) := s.foldl bump []

/-- Python `value.split()`: maximal runs of non-whitespace characters. -/
def pySplit (l : List Char) : List (List Char) :=
  match l with
  | [] => []
  | c :: rest =>
    if c.isWhitespace then pySplit rest
    else (c :: rest.takeWhile (fun x => !x.isWhitespace)) ::
      pySplit (rest.dropWhile (fun x => !x.isWhitespace))
termination_by l.length
decreasing_by
  · simp only [List.length_cons]; omega
  · have h := (List.dropWhile_sublist (l := rest) (fun x => !x.isWhitespace)).length_le
    simp only [List.length_cons]; omega

/-- The dictionary returned by `compute_string_properties` (the POST handler
later adds the `sha256_hash` key, modelled as the record id). -/
structure Props where
  length : Nat
  is_palindrome : Bool
  unique_characters : Nat
  word_count : Nat
  character_frequency_map : List (Char × Nat)
deriving DecidableEq

/-- `compute_string_properties` from `views.py`. -/
def compute_string_properties (value : List Char) : Props :=
  let lower_value := pyLower value
  { length := value.length
    is_palindrome := lower_value == lower_value.reverse
    unique_characters := value.dedup.length
    word_count := (pySplit value).length
    character_frequency_map := charFreq value }

/-! SHA-256 (FIPS 180-4) over `Nat` with explicit reduction modulo `2 ^ 32`,
modelling Python's `hashlib.sha256(value.encode('utf-8')).hexdigest()`. -/

/-- Reduce to a 32-bit word. -/
def w32 (n : Nat) : Nat := n % 4294967296

/-- Right rotation of a 32-bit word. -/
def rotr (x n : Nat) : Nat := (x >>> n) ||| w32 (x <<< (32 - n))

def shaCh (x y z : Nat) : Nat := (x &&& y) ^^^ ((x ^^^ 4294967295) &&& z)

def shaMaj (x y z : Nat) : Nat := (x &&& y) ^^^ (x &&& z) ^^^ (y &&& z)

def bigSigma0 (x : Nat) : Nat := rotr x 2 ^^^ rotr x 13 ^^^ rotr x 22

def bigSigma1 (x : Nat) : Nat := rotr x 6 ^^^ rotr x 11 ^^^ rotr x 25

def smallSigma0 (x : Nat) : Nat := rotr x 7 ^^^ rotr x 18 ^^^ (x >>> 3)

def smallSigma1 (x : Nat) : Nat := rotr x 17 ^^^ rotr x 19 ^^^ (x >>> 10)

/-- The SHA-256 round constants. -/
def shaK : List Nat :=
  [1116352408, 1899447441, 3049323471, 3921009573, 961987163,
   1508970993, 2453635748, 2870763221, 3624381080, 310598401,
   607225278, 1426881987, 1925078388, 2162078206, 2614888103,
   3248222580, 3835390401, 4022224774, 264347078, 604807628,
   770255983, 1249150122, 1555081692, 1996064986, 2554220882,
   2821834349, 2952996808, 3210313671, 3336571891, 3584528711,
   113926993, 338241895, 666307205, 773529912, 1294757372,
   1396182291, 1695183700, 1986661051, 2177026350, 2456956037,
   2730485921, 2820302411, 3259730800, 3345764771, 3516065817,
   3600352804, 4094571909, 275423344, 430227734, 506948616,
   659060556, 883997877, 958139571, 1322822218, 1537002063,
   1747873779, 1955562222, 2024104815, 2227730452, 2361852424,
   2428436474, 2756734187, 3204031479, 3329325298]

/-- The SHA-256 initial hash value. -/
def shaH0 : List Nat :=
  [1779033703,
   3144134277,
   1013904242,
   2773480762,
   1359893119,
   2600822924,
   528734635,
   1541459225]

/-- UTF-8 encoding of one code point. -/
def utf8Char (c : Char) : List Nat :=
  let n := c.toNat
  if n < 0x80 then [n]
  else if n < 0x800 then [0xc0 ||| (n >>> 6), 0x80 ||| (n &&& 0x3f)]
  else if n < 0x10000 then
    [0xe0 ||| (n >>> 12), 0x80 ||| ((n >>> 6) &&& 0x3f), 0x80 ||| (n &&& 0x3f)]
  else
    [0xf0 ||| (n >>> 18), 0x80 ||| ((n >>> 12) &&& 0x3f),
     0x80 ||| ((n >>> 6) &&& 0x3f), 0x80 ||| (n &&& 0x3f)]

/-- Python `value.encode('utf-8')` as a list of byte values. -/
def utf8Bytes (s : List Char) : List Nat := s.foldr (fun c acc => utf8Char c ++ acc) []

/-- `k`-byte big-endian encoding of `n`. -/
def bigEndianBytes (k n : Nat) : List Nat :=
  (List.range k).map (fun i => (n >>> (8 * (k - 1 - i))) % 256)

/-- SHA-256 message padding: `0x80`, zeros to 56 mod 64, 8-byte bit length. -/
def padMessage (msg : List Nat) : List Nat :=
  msg ++ [0x80] ++ List.replicate ((119 - msg.length % 64) % 64) 0
    ++ bigEndianBytes 8 (8 * msg.length)

/-- Split a padded message into 64-byte blocks. -/
def chunks (l : List Nat) : List (List Nat) :=
  (List.range (l.length / 64)).map (fun i => (l.drop (64 * i)).take 64)

/-- The 32-bit word at index `i` of a 64-byte block. -/
def wordAt (block : List Nat) (i : Nat) : Nat :=
  (block.getD (4 * i) 0 <<< 24) ||| (block.getD (4 * i + 1) 0 <<< 16) |||
    (block.getD (4 * i + 2) 0 <<< 8) ||| block.getD (4 * i + 3) 0

/-- The 64-entry message schedule of a block. -/
def schedule (block : List Nat) : List Nat :=
  (List.range 48).foldl
    (fun w t =>
      w ++ [w32 (smallSigma1 (w.getD (t + 14) 0) + w.getD (t + 9) 0 +
        smallSigma0 (w.getD (t + 1) 0) + w.getD t 0)])
    ((List.range 16).map (wordAt block))

/-- One SHA-256 compression step over the eight working variables. -/
def shaRound (w : List Nat) (st : List Nat) (t : Nat) : List Nat :=
  match st with
  | [a, b, c, d, e, f, g, h] =>
    let t1 := w32 (h + bigSigma1 e + shaCh e f g + shaK.getD t 0 + w.getD t 0)
    let t2 := w32 (bigSigma0 a + shaMaj a b c)
    [w32 (t1 + t2), a, b, c, w32 (d + t1), e, f, g]
  | _ => st

/-- Compress one 64-byte block into the running hash state. -/
def compress (h : List Nat) (block : List Nat) : List Nat :=
  let final := (List.range 64).foldl (shaRound (schedule block)) h
  (h.zip final).map (fun p => w32 (p.1 + p.2))

/-- SHA-256 digest (32 bytes) of a byte sequence. -/
def sha256Bytes (msg : List Nat) : List Nat :=
  ((chunks (padMessage msg)).foldl compress shaH0).foldr
    (fun x acc => bigEndianBytes 4 x ++ acc) []

/-- Lowercase hexadecimal digit. -/
def hexDigit (n : Nat) : Char := if n < 10 then Char.ofNat (48 + n) else Char.ofNat (87 + n)

/-- Lowercase hex string of a byte sequence, as Python's `hexdigest()`. -/
def toHexStr (bytes : List Nat) : List Char :=
  bytes.foldr (fun b acc => hexDigit (b / 16) :: hexDigit (b % 16) :: acc) []

/-- `get_sha256_hash` from `views.py`. -/
def get_sha256_hash (value : List Char) : List Char := toHexStr (sha256Bytes (utf8Bytes value))

/-! The store and the request handlers. -/

/-- A stored record.  The Python dict also carries `created_at` (wall-clock
time, outside this embedding) and repeats the hash inside `properties`;
the hash is the `id` field. -/
structure Entry where
  id : List Char
  value : List Char
  properties : Props
deriving DecidableEq

/-- The module-level dict `db`: an insertion-ordered map from hash to entry. -/
abbrev Db := List (List Char × Entry)

/-- `list(db.values())`. -/
def listRecords (db : Db) : List Entry := db.map (fun p => p.2)

/-- An HTTP response: status plus the records carried in the JSON body
(the created/fetched record for POST and GET-detail, the `data` list for the
listing endpoints, empty for error responses). -/
structure Response where
  status : Nat
  data : List Entry := []
deriving DecidableEq

/-- The create branch of `strings_view` (lines 51-67): hash, duplicate check,
property computation, insertion. -/
def postInsert (value : List Char) (db : Db) : Response × Db :=
  let sha256_hash := get_sha256_hash value
  match assocFind sha256_hash db with
  | some _ => ({ status := 409 }, db)
  | none =>
    let new_entry : Entry :=
      { id := sha256_hash, value := value, properties := compute_string_properties value }
    ({ status := 201, data := [new_entry] }, db ++ [(sha256_hash, new_entry)])

/-- Outcome of `json.loads(request.body)` followed by the `value` field
checks in the POST branch; JSON parsing itself is outside the embedding, so a
request body is represented by which of the four disjoint cases it lands in. -/
inductive ReqBody where
  | badJson
  | missingValue
  | nonString
  | value (v : List Char)
deriving DecidableEq

/-- Raw query parameters of `GET /strings`, each an optional string. -/
structure RawParams where
  is_palindrome : Option (List Char) := none
  min_length : Option (List Char) := none
  max_length : Option (List Char) := none
  word_count : Option (List Char) := none
  contains_character : Option (List Char) := none
deriving DecidableEq

/-- Line 76: `request.GET.get('is_palindrome').lower() == 'true'`. -/
def interpPalindromeParam (s : List Char) : Bool := pyLower s == ("true".toList)

/-- A structured filter set: the typed values extracted from query parameters
or from the natural-language parser. -/
structure FilterSet where
  is_palindrome : Option Bool := none
  min_length : Option Int := none
  max_length : Option Int := none
  word_count : Option Int := none
  contains_character : Option Char := none
deriving DecidableEq

/-- Parameter parsing of the GET branch of `strings_view` (lines 74-103):
each supplied parameter is converted in order; `int()` failure or a
multi-character `contains_character` aborts with the 400 branch (`none`). -/
def parseParams (p : RawParams) : Option FilterSet := do
  let fs0 : FilterSet := {}
  let fs1 := match p.is_palindrome with
    | none => fs0
    | some s => { fs0 with is_palindrome := some (interpPalindromeParam s) }
  let fs2 ← match p.min_length with
    | none => pure fs1
    | some s => (pyInt s).map (fun n => { fs1 with min_length := some n })
  let fs3 ← match p.max_length with
    | none => pure fs2
    | some s => (pyInt s).map (fun n => { fs2 with max_length := some n })
  let fs4 ← match p.word_count with
    | none => pure fs3
    | some s => (pyInt s).map (fun n => { fs3 with word_count := some n })
  match p.contains_character with
  | none => pure fs4
  | some s =>
    match s with
    | [c] => pure { fs4 with contains_character := some c }
    | _ => none

/-- The filter chain of the GET branch of `strings_view` (lines 75-100): one
list comprehension per supplied filter, applied in source order. -/
def applyFilters (fs : FilterSet) (l : List Entry) : List Entry :=
  let l1 := match fs.is_palindrome with
    | none => l
    | some b => l.filter (fun e => e.properties.is_palindrome == b)
  let l2 := match fs.min_length with
    | none => l1
    | some n => l1.filter (fun e => decide (n ≤ (e.properties.length : Int)))
  let l3 := match fs.max_length with
    | none => l2
    | some n => l2.filter (fun e => decide ((e.properties.length : Int) ≤ n))
  let l4 := match fs.word_count with
    | none => l3
    | some n => l3.filter (fun e => (e.properties.word_count : Int) == n)
  match fs.contains_character with
  | none => l4
  | some c => l4.filter (fun e => decide (c ∈ e.value))

/-- The GET branch of `strings_view`. -/
def getStrings (p : RawParams) (db : Db) : Response :=
  match parseParams p with
  | none => { status := 400 }
  | some fs => { status := 200, data := applyFilters fs (listRecords db) }

/-- `strings_view` from `views.py`: POST creates, GET lists/filters,
anything else is 405. -/
def strings_view (method : List Char) (body : ReqBody) (p : RawParams) (db : Db) :
    Response × Db :=
  if method = ("POST".toList) then
    match body with
    | .badJson => ({ status := 400 }, db)
    | .missingValue => ({ status := 404 }, db)
    | .nonString => ({ status := 422 }, db)
    | .value v => postInsert v db
  else if method = ("GET".toList) then (getStrings p db, db)
  else ({ status := 405 }, db)

/-- `string_detail_view` from `views.py`: the existence check runs before the
method dispatch, so an absent value yields 404 for every method. -/
def string_detail_view (method : List Char) (string_value : List Char) (db : Db) :
    Response × Db :=
  let sha256_hash := get_sha256_hash string_value
  match assocFind sha256_hash db with
  | none => ({ status := 404 }, db)
  | some e =>
    if method = ("GET".toList) then ({ status := 200, data := [e] }, db)
    else if method = ("DELETE".toList) then
      ({ status := 204 }, db.eraseP (fun q => q.1 == sha256_hash))
    else ({ status := 405 }, db)

/-! The natural-language query parser.  Each `re.search` call of
`parse_natural_language_query` is embedded as a dedicated left-to-right
scanner with the backtracking behaviour of the concrete pattern. -/

/-- Python `pat in text` (substring test). -/
def containsSub (pat : List Char) : List Char → Bool
  | [] => pat.isEmpty
  | c :: rest => pat.isPrefixOf (c :: rest) || containsSub pat rest

/-- A word character of `\b` / `\w` (ASCII range in this embedding). -/
def isWordChar (c : Char) : Bool := c.isAlphanum || c == '_'

def optIsWordChar : Option Char → Bool
  | none => false
  | some c => isWordChar c

/-- `\b`: a word boundary between two adjacent (possibly absent) characters. -/
def boundary (prev cur : Option Char) : Bool := optIsWordChar prev != optIsWordChar cur

/-- The regex alternation `one|two|three|four|five|single` together with the
`word_map` lookup that follows a group-1 word match. -/
def wordNumerals : List (List Char × Nat) :=
  [(['o', 'n', 'e'], 1), (['t', 'w', 'o'], 2), (['t', 'h', 'r', 'e', 'e'], 3),
   (['f', 'o', 'u', 'r'], 4), (['f', 'i', 'v', 'e'], 5), (['s', 'i', 'n', 'g', 'l', 'e'], 1)]

/-- The `\s+word` tail of the word-count pattern: at least one whitespace
character, then the literal `word`. -/
def spaceThenWord (l : List Char) : Bool :=
  let sp := l.takeWhile (fun c => c.isWhitespace)
  (!sp.isEmpty) && ("word".toList).isPrefixOf (l.drop sp.length)

/-- One alternative of group 1: the word numeral `wn` matched at the head of
`l` with a trailing `\b`, followed by `\s+word`. -/
def tryWordNum (l : List Char) (wn : List Char × Nat) : Option Nat :=
  if wn.1.isPrefixOf l && !optIsWordChar ((l.drop wn.1.length).head?)
      && spaceThenWord (l.drop wn.1.length) then some wn.2 else none

/-- Attempt of `(\b(one|two|three|four|five|single)\b|\d+)\s+word` at one
position (`prev` is the character before the position): the word alternative
with both boundaries first, then the greedy digit alternative. -/
def tryCountAt (prev : Option Char) (l : List Char) : Option Nat :=
  let altWordNum : Option Nat :=
    if boundary prev l.head? then wordNumerals.findSome? (tryWordNum l) else none
  match altWordNum with
  | some n => some n
  | none =>
    let ds := l.takeWhile Char.isDigit
    if (!ds.isEmpty) && spaceThenWord (l.drop ds.length) then some (pyIntDigits ds)
    else none

/-- Left-to-right scan of the word-count pattern, tracking the previous
character for the leading `\b`. -/
def searchCountFrom (prev : Option Char) (l : List Char) : Option Nat :=
  match l with
  | [] => none
  | c :: rest =>
    match tryCountAt prev (c :: rest) with
    | some n => some n
    | none => searchCountFrom (some c) rest

/-- `re.search` of the word-count pattern (lines 149-156). -/
def searchCount (l : List Char) : Option Nat := searchCountFrom none l

/-- `re.search` of a literal followed by a captured greedy digit run, as in
`longer than (\d+)` and `shorter than (\d+)`. -/
def searchNumAfter (pat : List Char) (l : List Char) : Option (List Char) :=
  match l with
  | [] => none
  | c :: rest =>
    if pat.isPrefixOf (c :: rest) then
      let ds := ((c :: rest).drop pat.length).takeWhile Char.isDigit
      if ds.isEmpty then searchNumAfter pat rest else some ds
    else searchNumAfter pat rest

/-- `re.search` of `exactly (\d+) characters` (greedy digits cannot
backtrack before a non-digit literal, so the captured run is the maximal
digit run followed by the literal ` characters`). -/
def searchExactly (l : List Char) : Option (List Char) :=
  match l with
  | [] => none
  | c :: rest =>
    let cur := c :: rest
    if ("exactly ".toList).isPrefixOf cur then
      let after := cur.drop 8
      let ds := after.takeWhile Char.isDigit
      if (!ds.isEmpty) && (" characters".toList).isPrefixOf (after.drop ds.length) then some ds
      else searchExactly rest
    else searchExactly rest

def isLowerAlpha (c : Char) : Bool := 'a' ≤ c && c ≤ 'z'

/-- Attempt of `contain(?:s|ing) the letter ([a-z])` at one position: the `s`
alternative is tried before `ing`; at most one can match. -/
def tryLetterAt (l : List Char) : Option Char :=
  if ("contains the letter ".toList).isPrefixOf l then
    match (l.drop 20).head? with
    | some c => if isLowerAlpha c then some c else none
    | none => none
  else if ("containing the letter ".toList).isPrefixOf l then
    match (l.drop 22).head? with
    | some c => if isLowerAlpha c then some c else none
    | none => none
  else none

/-- `re.search` of the contains-letter pattern (lines 172-174). -/
def searchLetter (l : List Char) : Option Char :=
  match l with
  | [] => none
  | c :: rest =>
    match tryLetterAt (c :: rest) with
    | some x => some x
    | none => searchLetter rest

/-- The value returned by a successful `parse_natural_language_query`. -/
structure InterpretedQuery where
  original : List Char
  parsed_filters : FilterSet
deriving DecidableEq

/-- `parse_natural_language_query` from `views.py`: the fixed ordered
sequence of pattern checks, each setting (or overwriting) filter fields,
then the emptiness test. -/
def parse_natural_language_query (query : List Char) : Option InterpretedQuery :=
  let q := pyLower query
  let f1 : FilterSet :=
    if containsSub ("palindromic".toList) q || containsSub ("palindrome".toList) q then
      { is_palindrome := some true }
    else {}
  let f2 := match searchCount q with
    | some n => { f1 with word_count := some (n : Int) }
    | none => f1
  let f3 := match searchNumAfter ("longer than ".toList) q with
    | some ds => { f2 with min_length := some ((pyIntDigits ds : Int) + 1) }
    | none => f2
  let f4 := match searchNumAfter ("shorter than ".toList) q with
    | some ds => { f3 with max_length := some ((pyIntDigits ds : Int) - 1) }
    | none => f3
  let f5 := match searchExactly q with
    | some ds =>
      { f4 with min_length := some (pyIntDigits ds : Int),
                max_length := some (pyIntDigits ds : Int) }
    | none => f4
  let f6 := match searchLetter q with
    | some c => { f5 with contains_character := some c }
    | none => f5
  let f7 :=
    if containsSub ("first vowel".toList) q then { f6 with contains_character := some 'a' }
    else f6
  if f7 = ({} : FilterSet) then none
  else some { original := query, parsed_filters := f7 }

/-- Line 203-204: both bounds present with `min_length > max_length`. -/
def conflictMinMax (fs : FilterSet) : Bool :=
  match fs.min_length, fs.max_length with
  | some a, some b => decide (b < a)
  | _, _ => false

/-- The filter chain of `filter_by_natural_language` (lines 212-225); note
the truthiness test `parsed_filters.get('is_palindrome')`. -/
def applyFiltersNL (fs : FilterSet) (l : List Entry) : List Entry :=
  let l1 :=
    if fs.is_palindrome.getD false then l.filter (fun e => e.properties.is_palindrome) else l
  let l2 := match fs.word_count with
    | none => l1
    | some n => l1.filter (fun e => (e.properties.word_count : Int) == n)
  let l3 := match fs.min_length with
    | none => l2
    | some n => l2.filter (fun e => decide (n ≤ (e.properties.length : Int)))
  let l4 := match fs.max_length with
    | none => l3
    | some n => l3.filter (fun e => decide ((e.properties.length : Int) ≤ n))
  match fs.contains_character with
  | none => l4
  | some c => l4.filter (fun e => decide (c ∈ e.value))

/-- `filter_by_natural_language` from `views.py`; `query = none` models an
absent parameter and the empty string is falsy, both reaching the same 400. -/
def filter_by_natural_language (method : List Char) (query : Option (List Char)) (db : Db) :
    Response :=
  if method ≠ ("GET".toList) then { status := 405 }
  else
    match query with
    | none => { status := 400 }
    | some q =>
      if q = [] then { status := 400 }
      else
        match parse_natural_language_query q with
        | none => { status := 400 }
        | some iq =>
          if conflictMinMax iq.parsed_filters then { status := 422 }
          else { status := 200, data := applyFiltersNL iq.parsed_filters (listRecords db) }

/-- `home_view` from `views.py`. -/
def home_view : Response := { status := 200 }

/-- The routed paths of `urls.py` plus the health-check root. -/
inductive UrlPath where
  | strings
  | nlfilter
  | detail (string_value : List Char)
  | home
deriving DecidableEq

/-- One HTTP request, already routed to a path. -/
structure Request where
  path : UrlPath
  method : List Char
  body : ReqBody := ReqBody.badJson
  params : RawParams := {}
  query : Option (List Char) := none
deriving DecidableEq

/-- Dispatch of a request to its view, returning the response and the store
after the request. -/
def handle (req : Request) (db : Db) : Response × Db :=
  match req.path with
  | .strings => strings_view req.method req.body req.params db
  | .nlfilter => (filter_by_natural_language req.method req.query db, db)
  | .detail v => string_detail_view req.method v db
  | .home => (home_view, db)

/-- Store states reachable from the empty store by any request sequence. -/
inductive Reachable : Db → Prop where
  | empty : Reachable []
  | step (req : Request) {db : Db} : Reachable db → Reachable (handle req db).2

/-! Lemmas about the frequency-map fold. -/

lemma assocFind_bump_self (m : List (Char × Nat)) (c : Char) :
    assocFind c (bump m c) = some ((assocFind c m).getD 0 + 1) := by
  induction m with
  | nil => simp [bump, assocFind]
  | cons kv rest ih =>
    obtain ⟨k, v⟩ := kv
    by_cases h : k = c
    · subst h; simp [bump, assocFind]
    · simp [bump, assocFind, h, ih]

lemma assocFind_bump_ne (m : List (Char × Nat)) (c x : Char) (h : c ≠ x) :
    assocFind c (bump m x) = assocFind c m := by
  have hxc : ¬(x = c) := fun hh => h hh.symm
  induction m with
  | nil => simp [bump, assocFind, hxc]
  | cons kv rest ih =>
    obtain ⟨k, v⟩ := kv
    by_cases hk : k = x
    · subst hk; simp [bump, assocFind, hxc]
    · simp [bump, assocFind, hk, ih]

lemma assocFind_foldl_bump (s : List Char) :
    ∀ (m : List (Char × Nat)) (c : Char),
      assocFind c (s.foldl bump m) =
        if c ∈ s ∨ (assocFind c m).isSome then some ((assocFind c m).getD 0 + s.count c)
        else none := by
  induction s with
  | nil =>
    intro m c
    cases h : assocFind c m <;> simp [h]
  | cons x t ih =>
    intro m c
    simp only [List.foldl_cons]
    rw [ih]
    by_cases hcx : c = x
    · subst hcx
      simp [assocFind_bump_self, List.count_cons]
      omega
    · rw [assocFind_bump_ne m c x hcx]
      simp [List.count_cons, hcx, List.mem_cons]

lemma charFreq_spec (s : List Char) (c : Char) :
    assocFind c (charFreq s) = if c ∈ s then some (s.count c) else none := by
  simp [charFreq, assocFind_foldl_bump, assocFind]

/-! Lemmas relating the Python `split()` embedding to `List.splitOnP`. -/

lemma splitOnP_structure {α : Type} (p : α → Bool) (l : List α) :
    l.splitOnP p = l.takeWhile (fun a => !p a) ::
      (match l.dropWhile (fun a => !p a) with
       | [] => []
       | _ :: t => t.splitOnP p) := by
  induction l with
  | nil => simp [List.splitOnP_nil]
  | cons a t ih =>
    by_cases h : p a
    · simp [List.splitOnP_cons, h, List.takeWhile_cons, List.dropWhile_cons]
    · simp [List.splitOnP_cons, h, List.takeWhile_cons, List.dropWhile_cons, ih]

lemma dropWhile_head_false {α : Type} (p : α → Bool) (l : List α) (a : α) (t : List α)
    (h : l.dropWhile p = a :: t) : p a = false := by
  induction l with
  | nil => simp [List.dropWhile] at h
  | cons x xs ih =>
    rw [List.dropWhile_cons] at h
    by_cases hx : p x
    · simp [hx] at h; exact ih h
    · simp [hx] at h; rw [← h.1]; simp [hx]

lemma pySplit_eq_splitOnP (l : List Char) :
    pySplit l = (l.splitOnP (fun c => c.isWhitespace)).filter (fun t => !t.isEmpty) := by
  induction l using pySplit.induct with
  | case1 => simp [pySplit, List.splitOnP_nil]
  | case2 c rest hws ih =>
    rw [pySplit]
    simp only [hws, if_true]
    rw [List.splitOnP_cons]
    simp [hws, ih]
  | case3 c rest hws ih =>
    rw [pySplit]
    simp only [hws, if_false]
    rw [splitOnP_structure]
    simp only [List.takeWhile_cons, List.dropWhile_cons, hws, Bool.not_false, if_true,
      Bool.not_true, if_false]
    rw [List.filter_cons_of_pos (by simp)]
    refine congrArg _ ?_
    cases hdrop : rest.dropWhile (fun x => !x.isWhitespace) with
    | nil =>
      simp only [pySplit]
      rfl
    | cons d t =>
      rw [hdrop] at ih
      have hd : d.isWhitespace = true := by
        have := dropWhile_head_false (fun x => !x.isWhitespace) rest d t hdrop
        simpa using this
      rw [ih, List.splitOnP_cons]
      simp [hd]

/-- C1.  For every string `s`, `compute_string_properties s` returns: length
equal to the number of code points of `s`; a palindrome flag that is true iff
the lowercased string equals its own reverse as a code-point sequence; the
number of distinct code points; the number of maximal whitespace-delimited
non-empty substrings; and a frequency map giving each code point of `s` its
occurrence count — and on the empty string all-zero properties with an empty
map and a true palindrome flag. -/
theorem c1_compute_string_properties (s : List Char) :
    (compute_string_properties s).length = s.length ∧
    ((compute_string_properties s).is_palindrome = true ↔ pyLower s = (pyLower s).reverse) ∧
    (compute_string_properties s).unique_characters = s.toFinset.card ∧
    (compute_string_properties s).word_count =
      ((s.splitOnP (fun c => c.isWhitespace)).filter (fun t => !t.isEmpty)).length ∧
    (∀ c : Char, assocFind c (compute_string_properties s).character_frequency_map =
      if c ∈ s then some (s.count c) else none) ∧
    compute_string_properties [] =
      { length := 0, is_palindrome := true, unique_characters := 0, word_count := 0,
        character_frequency_map := [] } := by
  refine ⟨rfl, ?_, ?_, ?_, ?_, ?_⟩
  · simp [compute_string_properties]
  · simp [compute_string_properties, List.card_toFinset]
  · simp [compute_string_properties, pySplit_eq_splitOnP]
  · intro c
    simp [compute_string_properties, charFreq_spec]
  · simp [compute_string_properties, pySplit, charFreq, pyLower]

/-- Conjunction of the five optional predicates of a filter set, stated per
record as in the specification of the FilterEngine. -/
def satisfiesFilters (fs : FilterSet) (e : Entry) : Bool :=
  fs.is_palindrome.all (fun b => e.properties.is_palindrome == b) &&
  fs.min_length.all (fun n => decide (n ≤ (e.properties.length : Int))) &&
  fs.max_length.all (fun n => decide ((e.properties.length : Int) ≤ n)) &&
  fs.word_count.all (fun n => (e.properties.word_count : Int) == n) &&
  fs.contains_character.all (fun c => decide (c ∈ e.value))

/-- C2.  Applying a filter set returns exactly the records satisfying every
specified predicate simultaneously (palindrome equality, `length ≥
min_length`, `length ≤ max_length`, word-count equality, code point occurs in
the value), and the empty filter set returns the input unchanged. -/
theorem c2_filtering_conjunctive (fs : FilterSet) (l : List Entry) :
    applyFilters fs l = l.filter (fun e => satisfiesFilters fs e) ∧
    (∀ e, satisfiesFilters fs e = true ↔
      ((∀ b, fs.is_palindrome = some b → e.properties.is_palindrome = b) ∧
       (∀ n, fs.min_length = some n → n ≤ (e.properties.length : Int)) ∧
       (∀ n, fs.max_length = some n → (e.properties.length : Int) ≤ n) ∧
       (∀ n, fs.word_count = some n → (e.properties.word_count : Int) = n) ∧
       (∀ c, fs.contains_character = some c → c ∈ e.value))) ∧
    applyFilters {} l = l := by
  obtain ⟨pal, minl, maxl, wc, cc⟩ := fs
  refine ⟨?_, ?_, rfl⟩
  · cases pal <;> cases minl <;> cases maxl <;> cases wc <;> cases cc <;>
      simp [applyFilters, satisfiesFilters, Bool.and_assoc, Bool.and_comm, Bool.and_left_comm]
  · intro e
    cases pal <;> cases minl <;> cases maxl <;> cases wc <;> cases cc <;>
      simp [satisfiesFilters, and_assoc]

/-- C3.  Whenever the lowercased query matches `exactly (\d+) characters`
(with captured digits `ds`), the parsed filter set has both `min_length` and
`max_length` equal to that number, regardless of what the `longer than` /
`shorter than` checks set earlier. -/
theorem c3_exactly_sets_both_bounds (q ds : List Char)
    (h : searchExactly (pyLower q) = some ds) :
    ∃ iq, parse_natural_language_query q = some iq ∧
      iq.parsed_filters.min_length = some (pyIntDigits ds : Int) ∧
      iq.parsed_filters.max_length = some (pyIntDigits ds : Int) := by
  simp only [parse_natural_language_query, h]
  cases h6 : searchLetter (pyLower q) <;>
    cases h7 : containsSub ("first vowel".toList) (pyLower q) <;>
      simp [FilterSet.mk.injEq]

/-- C7 counterexample: the parameter string `True` is not the string `true`,
yet the GET /strings handler interprets it as the boolean true, because the
code lowercases the parameter before comparing. -/
theorem c7_counterexample :
    interpPalindromeParam ("True".toList) = true ∧ ("True".toList ≠ "true".toList) := by
  exact ⟨by decide, by decide⟩

/-- C7 (amended).  The `is_palindrome` query parameter is interpreted as the
boolean true exactly when its lowercasing equals `true`; every other string
is treated as false. -/
theorem c7_palindrome_param (s : List Char) :
    interpPalindromeParam s = true ↔ pyLower s = ("true".toList) := by
  simp [interpPalindromeParam]

/-! Association-list lemmas for the store. -/

lemma assocFind_eq_none_iff {α β : Type} [DecidableEq α] (k : α) (l : List (α × β)) :
    assocFind k l = none ↔ ∀ p ∈ l, p.1 ≠ k := by
  induction l with
  | nil => simp [assocFind]
  | cons ab rest ih =>
    obtain ⟨a, b⟩ := ab
    by_cases h : a = k
    · subst h; simp [assocFind]
    · simp [assocFind, h, ih]

lemma assocFind_append_self {α β : Type} [DecidableEq α] (k : α) (l : List (α × β)) (e : β)
    (h : assocFind k l = none) : assocFind k (l ++ [(k, e)]) = some e := by
  induction l with
  | nil => simp [assocFind]
  | cons ab rest ih =>
    obtain ⟨a, b⟩ := ab
    by_cases ha : a = k
    · simp [assocFind, ha] at h
    · simp only [assocFind, ha, if_false, List.cons_append] at h ⊢
      exact ih h

lemma eraseP_append_self (k : List Char) (l : Db) (e : Entry)
    (h : assocFind k l = none) :
    (l ++ [(k, e)]).eraseP (fun q => q.1 == k) = l := by
  induction l with
  | nil => simp
  | cons ab rest ih =>
    obtain ⟨a, b⟩ := ab
    by_cases ha : a = k
    · simp [assocFind, ha] at h
    · simp only [assocFind, ha, if_false] at h
      rw [List.cons_append, List.eraseP_cons,
        show (a == k) = false from beq_eq_false_iff_ne.mpr ha]
      simp [ih h]

lemma length_eraseP_assocFind (k : List Char) (l : Db) (e : Entry)
    (h : assocFind k l = some e) :
    (l.eraseP (fun q => q.1 == k)).length + 1 = l.length := by
  induction l with
  | nil => simp [assocFind] at h
  | cons ab rest ih =>
    obtain ⟨a, b⟩ := ab
    by_cases ha : a = k
    · subst ha; simp [List.eraseP_cons]
    · simp only [assocFind, ha, if_false] at h
      rw [List.eraseP_cons, show (a == k) = false from beq_eq_false_iff_ne.mpr ha]
      have := ih h
      simp only [cond_false, List.length_cons]
      omega

/-- The conflict test of line 203-204 as an existence statement. -/
lemma conflictMinMax_iff (fs : FilterSet) :
    conflictMinMax fs = true ↔
      ∃ a b, fs.min_length = some a ∧ fs.max_length = some b ∧ b < a := by
  cases hmin : fs.min_length <;> cases hmax : fs.max_length <;>
    simp [conflictMinMax, hmin, hmax]

/-- C4.  For a parseable query, the natural-language filter endpoint answers
422 exactly when the parsed filter set carries both bounds with
`min_length > max_length`, and a 422 response carries no records. -/
theorem c4_nl_conflict_422 (q : List Char) (iq : InterpretedQuery) (db : Db)
    (hq : q ≠ []) (hp : parse_natural_language_query q = some iq) :
    ((filter_by_natural_language ("GET".toList) (some q) db).status = 422 ↔
      (∃ a b, iq.parsed_filters.min_length = some a ∧
        iq.parsed_filters.max_length = some b ∧ b < a)) ∧
    ((filter_by_natural_language ("GET".toList) (some q) db).status = 422 →
      (filter_by_natural_language ("GET".toList) (some q) db).data = []) := by
  have hm : ¬(("GET".toList : List Char) ≠ ("GET".toList : List Char)) := by simp
  have hstat : filter_by_natural_language ("GET".toList) (some q) db =
      (if conflictMinMax iq.parsed_filters then { status := 422 }
       else { status := 200, data := applyFiltersNL iq.parsed_filters (listRecords db) }) := by
    simp only [filter_by_natural_language, hm, if_false, if_neg hq, hp]
  rw [hstat]
  by_cases hc : conflictMinMax iq.parsed_filters = true
  · rw [if_pos hc]
    exact ⟨⟨fun _ => (conflictMinMax_iff _).mp hc, fun _ => rfl⟩, fun _ => rfl⟩
  · rw [if_neg hc]
    refine ⟨⟨fun h422 => by simp at h422, fun hex => ?_⟩, fun h422 => by simp at h422⟩
    exact absurd ((conflictMinMax_iff _).mpr hex) hc

/-- C4 witness: the query `longer than 5 shorter than 3` parses to
`min_length = 6, max_length = 2` and is answered with 422. -/
theorem c4_witness :
    (filter_by_natural_language ("GET".toList)
      (some ("longer than 5 shorter than 3".toList)) []).status = 422 := by
  have h := c4_nl_conflict_422 ("longer than 5 shorter than 3".toList)
    { original := "longer than 5 shorter than 3".toList,
      parsed_filters := { min_length := some 6, max_length := some 2 } } []
    (by decide) (by decide)
  exact h.1.mpr ⟨6, 2, rfl, rfl, by decide⟩

/-- C5.  When a value is not yet stored: inserting it answers 201; inserting
it again answers 409 and leaves the store unchanged; deleting it then
answers 204 and restores the original store; re-inserting afterwards answers
201 again with a record carrying the same id (the SHA-256 hex digest of the
value), the id of the record that was deleted. -/
theorem c5_insert_twice_delete_reinsert (v : List Char) (db : Db)
    (h : assocFind (get_sha256_hash v) db = none) :
    (postInsert v db).1.status = 201 ∧
    (postInsert v (postInsert v db).2).1.status = 409 ∧
    (postInsert v (postInsert v db).2).2 = (postInsert v db).2 ∧
    (string_detail_view ("DELETE".toList) v (postInsert v db).2).1.status = 204 ∧
    (string_detail_view ("DELETE".toList) v (postInsert v db).2).2 = db ∧
    (postInsert v db).1.data.map (fun e => e.id) = [get_sha256_hash v] ∧
    (postInsert v (string_detail_view ("DELETE".toList) v (postInsert v db).2).2).1.status
      = 201 ∧
    (postInsert v (string_detail_view ("DELETE".toList) v (postInsert v db).2).2).1.data.map
        (fun e => e.id)
      = (postInsert v db).1.data.map (fun e => e.id) := by
  have hsome := assocFind_append_self (get_sha256_hash v) db
    ⟨get_sha256_hash v, v, compute_string_properties v⟩ h
  have herase := eraseP_append_self (get_sha256_hash v) db
    ⟨get_sha256_hash v, v, compute_string_properties v⟩ h
  have hne : ¬(("DELETE".toList : List Char) = "GET".toList) := by decide
  simp only [postInsert, h, string_detail_view, hsome, hne, if_false, if_true,
    eq_self_iff_true, herase]
  simp [h, herase]

/-- C5 witness: the double-insert / delete / re-insert scenario run from the
empty store on the value `a`. -/
theorem c5_witness :
    (postInsert ("a".toList) []).1.status = 201 ∧
    (postInsert ("a".toList) (postInsert ("a".toList) []).2).1.status = 409 ∧
    (postInsert ("a".toList) (postInsert ("a".toList) []).2).2 = (postInsert ("a".toList) []).2 ∧
    (string_detail_view ("DELETE".toList) ("a".toList) (postInsert ("a".toList) []).2).2 = [] := by
  have h := c5_insert_twice_delete_reinsert ("a".toList) [] rfl
  exact ⟨h.1, h.2.1, h.2.2.1, h.2.2.2.2.1⟩

/-! The store invariant of C6. -/

/-- Every entry is keyed by the SHA-256 of its value and carries that key as
its id, and the keys are pairwise distinct. -/
def StoreInv (db : Db) : Prop :=
  (∀ p ∈ db, p.1 = get_sha256_hash p.2.value ∧ p.2.id = p.1) ∧
  (db.map (fun p => p.1)).Nodup

lemma storeInv_insert (v : List Char) (db : Db) (hinv : StoreInv db) :
    StoreInv (postInsert v db).2 := by
  obtain ⟨h1, h2⟩ := hinv
  cases hf : assocFind (get_sha256_hash v) db with
  | some e => simpa [postInsert, hf] using ⟨h1, h2⟩
  | none =>
    simp only [postInsert, hf]
    constructor
    · intro p hp
      rcases List.mem_append.mp hp with hin | hnew
      · exact h1 p hin
      · simp only [List.mem_singleton] at hnew
        subst hnew
        exact ⟨rfl, rfl⟩
    · rw [List.map_append]
      simp only [List.map_cons, List.map_nil]
      rw [List.nodup_append]
      refine ⟨h2, List.nodup_singleton _, ?_⟩
      intro a ha hb
      simp only [List.mem_singleton] at hb
      subst hb
      have := (assocFind_eq_none_iff (get_sha256_hash v) db).mp hf
      obtain ⟨p, hp, hpa⟩ := List.mem_map.mp ha
      exact this p hp (by rw [hpa])

lemma storeInv_handle (req : Request) (db : Db) (hinv : StoreInv db) :
    StoreInv (handle req db).2 := by
  obtain ⟨path, m, body, params, query⟩ := req
  cases path with
  | strings =>
    simp only [handle, strings_view]
    by_cases hp : m = ("POST".toList)
    · rw [if_pos hp]
      cases body with
      | badJson => exact hinv
      | missingValue => exact hinv
      | nonString => exact hinv
      | value v => exact storeInv_insert v db hinv
    · rw [if_neg hp]
      by_cases hg : m = ("GET".toList)
      · rw [if_pos hg]; exact hinv
      · rw [if_neg hg]; exact hinv
  | nlfilter => exact hinv
  | detail v =>
    simp only [handle, string_detail_view]
    split
    · exact hinv
    · by_cases hg : m = ("GET".toList)
      · rw [if_pos hg]; exact hinv
      · rw [if_neg hg]
        by_cases hd : m = ("DELETE".toList)
        · rw [if_pos hd]
          obtain ⟨h1, h2⟩ := hinv
          have hsub : (db.eraseP (fun q => q.1 == get_sha256_hash v)).Sublist db :=
            List.eraseP_sublist db
          exact ⟨fun p hp => h1 p (hsub.mem hp), (h2.sublist (hsub.map _))⟩
        · rw [if_neg hd]; exact hinv
  | home => exact hinv

/-- C6.  In every store state reachable by any request sequence, each stored
record's id is the SHA-256 hex digest of the UTF-8 bytes of its value, and no
two stored records share an id. -/
theorem c6_reachable_ids (db : Db) (h : Reachable db) :
    (∀ p ∈ db, p.2.id = get_sha256_hash p.2.value) ∧
    (db.map (fun p => p.2.id)).Nodup := by
  have hinv : StoreInv db := by
    induction h with
    | empty => exact ⟨by simp, by simp⟩
    | step req hdb ih => exact storeInv_handle req _ ih
  obtain ⟨h1, h2⟩ := hinv
  constructor
  · intro p hp
    rw [(h1 p hp).2, (h1 p hp).1]
  · have hmap : db.map (fun p => p.2.id) = db.map (fun p => p.1) :=
      List.map_congr_left (fun p hp => (h1 p hp).2)
    rw [hmap]
    exact h2

/-- C6 witness: the invariant instantiated at the reachable empty store. -/
theorem c6_witness :
    (∀ p ∈ ([] : Db), p.2.id = get_sha256_hash p.2.value) ∧
    (([] : Db).map (fun p => p.2.id)).Nodup :=
  c6_reachable_ids [] Reachable.empty

/-- C8 counterexample: `PUT` is not among the methods of
`/strings/{value}`, yet the handler answers 404 (not 405) when the addressed
value is not stored, because the existence check precedes the method check. -/
theorem c8_counterexample :
    ("PUT".toList ≠ ("GET".toList : List Char)) ∧
    ("PUT".toList ≠ ("DELETE".toList : List Char)) ∧
    (handle { path := UrlPath.detail ("x".toList), method := "PUT".toList } []).1.status
      = 404 :=
  ⟨by decide, by decide, rfl⟩

/-- C8 (amended).  A method outside the defined set answers 405 on `/strings`
and on `/strings/filter-by-natural-language` regardless of the rest of the
request; on `/strings/{value}` it answers 405 when the addressed value is
stored, while for an absent value every method (including the defined ones)
answers 404. -/
theorem c8_method_dispatch (db : Db) (m : List Char) :
    (∀ body params query,
      m ≠ ("POST".toList) → m ≠ ("GET".toList) →
      (handle ⟨UrlPath.strings, m, body, params, query⟩ db).1.status = 405) ∧
    (∀ body params query,
      m ≠ ("GET".toList) →
      (handle ⟨UrlPath.nlfilter, m, body, params, query⟩ db).1.status = 405) ∧
    (∀ v body params query,
      m ≠ ("GET".toList) → m ≠ ("DELETE".toList) →
      (assocFind (get_sha256_hash v) db).isSome →
      (handle ⟨UrlPath.detail v, m, body, params, query⟩ db).1.status = 405) ∧
    (∀ v body params query,
      assocFind (get_sha256_hash v) db = none →
      (handle ⟨UrlPath.detail v, m, body, params, query⟩ db).1.status = 404) := by
  refine ⟨?_, ?_, ?_, ?_⟩
  · intro body params query hp hg
    simp only [handle, strings_view, if_neg hp, if_neg hg]
  · intro body params query hg
    simp only [handle, filter_by_natural_language, if_pos hg]
  · intro v body params query hg hd hsome
    cases hf : assocFind (get_sha256_hash v) db with
    | none => rw [hf] at hsome; simp at hsome
    | some e => simp only [handle, string_detail_view, hf, if_neg hg, if_neg hd]
  · intro v body params query hf
    simp only [handle, string_detail_view, hf]

/-- C8 witness: `PUT /strings` on the empty store answers 405. -/
theorem c8_witness :
    (handle { path := UrlPath.strings, method := "PUT".toList } []).1.status = 405 := by
  have h := c8_method_dispatch [] ("PUT".toList)
  exact h.1 ReqBody.badJson {} none (by decide) (by decide)

/-! Status classification helpers for C9. -/

lemma getStrings_status (p : RawParams) (db : Db) :
    (getStrings p db).status = 400 ∨ (getStrings p db).status = 200 := by
  cases h : parseParams p <;> simp [getStrings, h]

lemma nl_status_cases (m : List Char) (q : Option (List Char)) (db : Db) :
    (filter_by_natural_language m q db).status = 405 ∨
    (filter_by_natural_language m q db).status = 400 ∨
    (filter_by_natural_language m q db).status = 422 ∨
    (filter_by_natural_language m q db).status = 200 := by
  unfold filter_by_natural_language
  split
  · exact Or.inl rfl
  · split
    · exact Or.inr (Or.inl rfl)
    · split
      · exact Or.inr (Or.inl rfl)
      · split
        · exact Or.inr (Or.inl rfl)
        · split
          · exact Or.inr (Or.inr (Or.inl rfl))
          · exact Or.inr (Or.inr (Or.inr rfl))

/-- The five mutation facts of C9 in the case of a request that leaves the
store untouched. -/
lemma static_facts {P Q : Prop} (r : Response) (db : Db)
    (h201 : r.status ≠ 201) (h204 : r.status ≠ 204) :
    (P → db = db) ∧ (Q → db = db) ∧ (db ≠ db → r.status = 201 ∨ r.status = 204) ∧
    (r.status = 201 → ∃ p, db = db ++ [p]) ∧
    (r.status = 204 → db.Sublist db ∧ db.length + 1 = db.length) :=
  ⟨fun _ => rfl, fun _ => rfl, fun hne => absurd rfl hne,
   fun h => absurd h h201, fun h => absurd h h204⟩

/-- C9.  Error responses (4xx) leave the store unchanged; GET requests never
modify it; any change of the store means the response was a successful
creation (201) or deletion (204); a 201 appends exactly one entry and a 204
removes exactly one entry. -/
theorem c9_only_success_mutates (req : Request) (db : Db) :
    (400 ≤ (handle req db).1.status → (handle req db).2 = db) ∧
    (req.method = ("GET".toList) → (handle req db).2 = db) ∧
    ((handle req db).2 ≠ db →
      (handle req db).1.status = 201 ∨ (handle req db).1.status = 204) ∧
    ((handle req db).1.status = 201 → ∃ p, (handle req db).2 = db ++ [p]) ∧
    ((handle req db).1.status = 204 →
      (handle req db).2.Sublist db ∧ (handle req db).2.length + 1 = db.length) := by
  obtain ⟨path, m, body, params, query⟩ := req
  cases path with
  | strings =>
    simp only [handle, strings_view]
    by_cases hp : m = ("POST".toList)
    · rw [if_pos hp]
      cases body with
      | badJson => exact static_facts _ db (by simp) (by simp)
      | missingValue => exact static_facts _ db (by simp) (by simp)
      | nonString => exact static_facts _ db (by simp) (by simp)
      | value v =>
        simp only [postInsert]
        cases hf : assocFind (get_sha256_hash v) db with
        | some e => exact static_facts _ db (by simp) (by simp)
        | none =>
          refine ⟨fun hA => by simp at hA, fun hB => ?_, fun _ => Or.inl rfl,
            fun _ => ⟨_, rfl⟩, fun h204 => by simp at h204⟩
          rw [hp] at hB
          exact absurd hB (by decide)
    · rw [if_neg hp]
      by_cases hg : m = ("GET".toList)
      · rw [if_pos hg]
        refine static_facts _ db ?_ ?_ <;>
          rcases getStrings_status params db with h | h <;> simp [h]
      · rw [if_neg hg]
        exact static_facts _ db (by simp) (by simp)
  | nlfilter =>
    simp only [handle]
    have hn := nl_status_cases m query db
    refine ⟨fun _ => trivial, fun _ => trivial, fun hne => absurd rfl hne, ?_, ?_⟩
    · intro h201; rcases hn with h | h | h | h <;> omega
    · intro h204; rcases hn with h | h | h | h <;> omega
  | detail v =>
    simp only [handle, string_detail_view]
    split
    · exact static_facts _ db (by simp) (by simp)
    · next e heq =>
      by_cases hg : m = ("GET".toList)
      · rw [if_pos hg]
        exact static_facts _ db (by simp) (by simp)
      · rw [if_neg hg]
        by_cases hd : m = ("DELETE".toList)
        · rw [if_pos hd]
          exact ⟨fun hA => by simp at hA, fun hB => absurd hB hg,
            fun _ => Or.inr rfl, fun h201 => by simp at h201,
            fun _ => ⟨List.eraseP_sublist db, length_eraseP_assocFind _ db e heq⟩⟩
        · rw [if_neg hd]
          exact static_facts _ db (by simp) (by simp)
  | home =>
    simp only [handle]
    exact ⟨fun _ => trivial, fun _ => trivial, fun hne => absurd rfl hne,
      fun h => by simp [home_view] at h, fun h => by simp [home_view] at h⟩

/-- C9 witness: a POST with an invalid JSON body answers 400 and leaves the
empty store empty. -/
theorem c9_witness :
    (handle { path := UrlPath.strings, method := "POST".toList } []).2 = [] := by
  have h := c9_only_success_mutates
    { path := UrlPath.strings, method := "POST".toList } []
  exact h.1 (by decide)

/-! Character lemmas and scanner-skipping lemmas for C10, where the query
contains an arbitrary digit sequence. -/

lemma beq_false_of_digit (x c : Char) (hx : x.isDigit = false) (hc : c.isDigit = true) :
    (x == c) = false := by
  cases hxc : x == c
  · rfl
  · have hx2 := eq_of_beq hxc
    rw [hx2, hc] at hx
    exact Bool.noConfusion hx

lemma pyLowerChar_digit (c : Char) (h : c.isDigit = true) : pyLowerChar c = c := by
  unfold Char.isDigit at h
  simp only [Bool.and_eq_true, decide_eq_true_eq] at h
  obtain ⟨hlo, hhi⟩ := h
  rw [UInt32.le_def, BitVec.le_def] at hhi
  unfold pyLowerChar Char.toLower
  rw [if_neg]
  rintro ⟨h1, h2⟩
  unfold Char.toNat UInt32.toNat at h1
  simp at hhi
  omega

lemma isWordChar_digit (c : Char) (h : c.isDigit = true) : isWordChar c = true := by
  simp [isWordChar, Char.isAlphanum, h]

lemma containsSub_digits_skip (x : Char) (px : List Char) (hxd : x.isDigit = false)
    (N rest : List Char) :
    (∀ c ∈ N, c.isDigit = true) →
      containsSub (x :: px) (N ++ rest) = containsSub (x :: px) rest := by
  induction N with
  | nil => intro _; rfl
  | cons d t ih =>
    intro hdig
    have hd : d.isDigit = true := hdig d (List.mem_cons_self d t)
    rw [List.cons_append]
    simp only [containsSub, List.isPrefixOf_cons₂, beq_false_of_digit x d hxd hd,
      Bool.false_and, Bool.false_or]
    exact ih (fun c hc => hdig c (List.mem_cons_of_mem d hc))

lemma searchNumAfter_digits_skip (x : Char) (px : List Char) (hxd : x.isDigit = false)
    (N rest : List Char) :
    (∀ c ∈ N, c.isDigit = true) →
      searchNumAfter (x :: px) (N ++ rest) = searchNumAfter (x :: px) rest := by
  induction N with
  | nil => intro _; rfl
  | cons d t ih =>
    intro hdig
    have hd : d.isDigit = true := hdig d (List.mem_cons_self d t)
    rw [List.cons_append]
    simp only [searchNumAfter, List.isPrefixOf_cons₂, beq_false_of_digit x d hxd hd,
      Bool.false_and, Bool.false_eq_true, if_false]
    exact ih (fun c hc => hdig c (List.mem_cons_of_mem d hc))

lemma searchExactly_digits_skip (N rest : List Char) :
    (∀ c ∈ N, c.isDigit = true) →
      searchExactly (N ++ rest) = searchExactly rest := by
  induction N with
  | nil => intro _; rfl
  | cons d t ih =>
    intro hdig
    have hd : d.isDigit = true := hdig d (List.mem_cons_self d t)
    rw [List.cons_append]
    simp only [searchExactly, List.isPrefixOf, List.isPrefixOf_cons₂,
      beq_false_of_digit 'e' d (by decide) hd, Bool.false_and, Bool.false_eq_true, if_false]
    exact ih (fun c hc => hdig c (List.mem_cons_of_mem d hc))

lemma searchLetter_digits_skip (N rest : List Char) :
    (∀ c ∈ N, c.isDigit = true) →
      searchLetter (N ++ rest) = searchLetter rest := by
  induction N with
  | nil => intro _; rfl
  | cons d t ih =>
    intro hdig
    have hd : d.isDigit = true := hdig d (List.mem_cons_self d t)
    rw [List.cons_append]
    simp only [searchLetter, tryLetterAt, List.isPrefixOf, List.isPrefixOf_cons₂,
      beq_false_of_digit 'c' d (by decide) hd, Bool.false_and, Bool.false_eq_true, if_false]
    exact ih (fun c hc => hdig c (List.mem_cons_of_mem d hc))

lemma pyLower_digits (N : List Char) (hdig : ∀ c ∈ N, c.isDigit = true) :
    pyLower N = N := by
  unfold pyLower
  have h : List.map pyLowerChar N = List.map id N :=
    List.map_congr_left (fun c hc => pyLowerChar_digit c (hdig c hc))
  rw [h, List.map_id]

lemma takeWhile_digits (N rest : List Char) (hdig : ∀ c ∈ N, c.isDigit = true)
    (hrest : rest.takeWhile Char.isDigit = []) :
    (N ++ rest).takeWhile Char.isDigit = N := by
  rw [List.takeWhile_append_of_pos hdig, hrest, List.append_nil]

lemma tryWordNum_digit (d : Char) (hd : d.isDigit = true) (rest : List Char) :
    ∀ wn ∈ wordNumerals, tryWordNum (d :: rest) wn = none := by
  intro wn hwn
  have h1 : ∀ (x : Char) (px : List Char), x.isDigit = false →
      ((x :: px).isPrefixOf (d :: rest) &&
        !optIsWordChar (((d :: rest).drop (x :: px).length).head?) &&
        spaceThenWord ((d :: rest).drop (x :: px).length)) = false := by
    intro x px hx
    rw [List.isPrefixOf_cons₂, beq_false_of_digit x d hx hd]
    simp only [Bool.false_and]
  simp only [wordNumerals, List.mem_cons, List.not_mem_nil, or_false] at hwn
  rcases hwn with rfl | rfl | rfl | rfl | rfl | rfl
  · simp only [tryWordNum, h1 'o' ['n', 'e'] (by decide), Bool.false_eq_true, if_false]
  · simp only [tryWordNum, h1 't' ['w', 'o'] (by decide), Bool.false_eq_true, if_false]
  · simp only [tryWordNum, h1 't' ['h', 'r', 'e', 'e'] (by decide), Bool.false_eq_true, if_false]
  · simp only [tryWordNum, h1 'f' ['o', 'u', 'r'] (by decide), Bool.false_eq_true, if_false]
  · simp only [tryWordNum, h1 'f' ['i', 'v', 'e'] (by decide), Bool.false_eq_true, if_false]
  · simp only [tryWordNum, h1 's' ['i', 'n', 'g', 'l', 'e'] (by decide), Bool.false_eq_true,
      if_false]

lemma tryCountAt_digits (prev : Option Char) (hprev : optIsWordChar prev = false)
    (d : Char) (t rest : List Char) (hdig : ∀ c ∈ (d :: t), c.isDigit = true)
    (hr1 : rest.takeWhile Char.isDigit = []) (hr2 : spaceThenWord rest = true) :
    tryCountAt prev ((d :: t) ++ rest) = some (pyIntDigits (d :: t)) := by
  have hd : d.isDigit = true := hdig d (List.mem_cons_self d t)
  have htake : (d :: (t ++ rest)).takeWhile Char.isDigit = d :: t := by
    rw [← List.cons_append]
    exact takeWhile_digits _ _ hdig hr1
  have hdrop : (d :: (t ++ rest)).drop (d :: t).length = rest := by
    rw [← List.cons_append]
    exact List.drop_left _ _
  have hfind : wordNumerals.findSome? (tryWordNum (d :: (t ++ rest))) = none :=
    List.findSome?_eq_none_iff.mpr (tryWordNum_digit d hd (t ++ rest))
  rw [List.cons_append]
  simp only [tryCountAt, hfind, ite_self, htake, hdrop, hr2]
  simp [pyIntDigits]

lemma searchCountFrom_longer_skip (rest : List Char) :
    searchCountFrom none (("longer than ".toList) ++ rest) =
      searchCountFrom (some ' ') rest := by
  simp [searchCountFrom, tryCountAt, tryWordNum, boundary, optIsWordChar, isWordChar,
    wordNumerals, spaceThenWord]

lemma searchCountFrom_phrase (d : Char) (t : List Char)
    (hdig : ∀ c ∈ (d :: t), c.isDigit = true) :
    searchCountFrom none (("longer than ".toList) ++ ((d :: t) ++ (" words".toList))) =
      some (pyIntDigits (d :: t)) := by
  have hstep := tryCountAt_digits (some ' ') (by decide) d t (" words".toList) hdig
    (by decide) (by decide)
  rw [List.cons_append] at hstep
  rw [searchCountFrom_longer_skip, List.cons_append]
  simp only [searchCountFrom, hstep]

/-- Scanning skips any region whose characters all differ from the first
pattern character (substring test). -/
lemma containsSub_skip (x : Char) (px l₁ rest : List Char)
    (h : ∀ c ∈ l₁, (x == c) = false) :
    containsSub (x :: px) (l₁ ++ rest) = containsSub (x :: px) rest := by
  induction l₁ with
  | nil => rfl
  | cons c cs ih =>
    rw [List.cons_append]
    simp only [containsSub, List.isPrefixOf_cons₂, h c (List.mem_cons_self c cs),
      Bool.false_and, Bool.false_or]
    exact ih (fun c2 hc2 => h c2 (List.mem_cons_of_mem c hc2))

/-- Scanning skips any region whose characters all differ from the first
pattern character (number-after-literal search). -/
lemma searchNumAfter_skip (x : Char) (px l₁ rest : List Char)
    (h : ∀ c ∈ l₁, (x == c) = false) :
    searchNumAfter (x :: px) (l₁ ++ rest) = searchNumAfter (x :: px) rest := by
  induction l₁ with
  | nil => rfl
  | cons c cs ih =>
    rw [List.cons_append]
    simp only [searchNumAfter, List.isPrefixOf_cons₂, h c (List.mem_cons_self c cs),
      Bool.false_and, Bool.false_eq_true, if_false]
    exact ih (fun c2 hc2 => h c2 (List.mem_cons_of_mem c hc2))

lemma searchExactly_longer_skip (rest : List Char) :
    searchExactly (("longer than ".toList) ++ rest) = searchExactly rest := by
  simp [searchExactly, List.isPrefixOf]

lemma searchLetter_longer_skip (rest : List Char) :
    searchLetter (("longer than ".toList) ++ rest) = searchLetter rest := by
  simp [searchLetter, tryLetterAt, List.isPrefixOf]

lemma pyLower_append (a b : List Char) : pyLower (a ++ b) = pyLower a ++ pyLower b := by
  simp [pyLower]

lemma isPrefixOf_append_self (l r : List Char) : l.isPrefixOf (l ++ r) = true := by
  induction l with
  | nil => simp [List.isPrefixOf]
  | cons a l ih => simp [List.isPrefixOf_cons₂, ih]

/-- When the scanned text starts with the literal itself and digits follow,
the number-after-literal search succeeds at position zero with the maximal
digit run. -/
lemma searchNumAfter_at_match (p : Char) (pt rest : List Char)
    (hne : rest.takeWhile Char.isDigit ≠ []) :
    searchNumAfter (p :: pt) ((p :: pt) ++ rest) =
      some (rest.takeWhile Char.isDigit) := by
  have hempty : (rest.takeWhile Char.isDigit).isEmpty = false := by
    cases hds : rest.takeWhile Char.isDigit with
    | nil => exact absurd hds hne
    | cons a b => rfl
  have hdrop : ((p :: pt) ++ rest).drop (p :: pt).length = rest := List.drop_left _ _
  rw [List.cons_append]
  simp only [searchNumAfter]
  rw [← List.cons_append, if_pos (by rw [isPrefixOf_append_self]), hdrop, hempty]
  rw [if_neg (by simp)]

/-- C10 (amended).  For every nonempty digit sequence `N`, the query
`longer than N words` makes both parser checks fire on the same number: the
count-phrase check sets `word_count = N` and the `longer than` check sets
`min_length = N + 1`, and the parsed filter set contains exactly these two
fields. -/
theorem c10_longer_than_n_words (N : List Char) (hne : N ≠ [])
    (hdig : ∀ c ∈ N, c.isDigit = true) :
    parse_natural_language_query (("longer than ".toList) ++ N ++ (" words".toList)) =
      some { original := ("longer than ".toList) ++ N ++ (" words".toList),
             parsed_filters :=
               { word_count := some (pyIntDigits N : Int),
                 min_length := some ((pyIntDigits N : Int) + 1) } } := by
  obtain ⟨d, t, rfl⟩ : ∃ d t, N = d :: t := by
    cases N with
    | nil => exact absurd rfl hne
    | cons d t => exact ⟨d, t, rfl⟩
  have hd : d.isDigit = true := hdig d (List.mem_cons_self d t)
  have hdigbeq : ∀ (x : Char), x.isDigit = false → ∀ c ∈ (d :: t), (x == c) = false :=
    fun x hx c hc => beq_false_of_digit x c hx (hdig c hc)
  rw [List.append_assoc]
  have hlow : pyLower (("longer than ".toList) ++ ((d :: t) ++ (" words".toList))) =
      ("longer than ".toList) ++ ((d :: t) ++ (" words".toList)) := by
    rw [pyLower_append, pyLower_append, pyLower_digits (d :: t) hdig]
    rw [show pyLower ("longer than ".toList) = ("longer than ".toList) from by decide,
      show pyLower (" words".toList) = (" words".toList) from by decide]
  have hpal1 : containsSub ("palindromic".toList)
      (("longer than ".toList) ++ ((d :: t) ++ (" words".toList))) = false := by
    rw [show ("palindromic".toList : List Char) = 'p' :: ("alindromic".toList) from rfl]
    rw [containsSub_skip 'p' ("alindromic".toList) ("longer than ".toList) _ (by decide)]
    rw [containsSub_skip 'p' ("alindromic".toList) (d :: t) _ (hdigbeq 'p' (by decide))]
    decide
  have hpal2 : containsSub ("palindrome".toList)
      (("longer than ".toList) ++ ((d :: t) ++ (" words".toList))) = false := by
    rw [show ("palindrome".toList : List Char) = 'p' :: ("alindrome".toList) from rfl]
    rw [containsSub_skip 'p' ("alindrome".toList) ("longer than ".toList) _ (by decide)]
    rw [containsSub_skip 'p' ("alindrome".toList) (d :: t) _ (hdigbeq 'p' (by decide))]
    decide
  have hvowel : containsSub ("first vowel".toList)
      (("longer than ".toList) ++ ((d :: t) ++ (" words".toList))) = false := by
    rw [show ("first vowel".toList : List Char) = 'f' :: ("irst vowel".toList) from rfl]
    rw [containsSub_skip 'f' ("irst vowel".toList) ("longer than ".toList) _ (by decide)]
    rw [containsSub_skip 'f' ("irst vowel".toList) (d :: t) _ (hdigbeq 'f' (by decide))]
    decide
  have hcount : searchCount (("longer than ".toList) ++ ((d :: t) ++ (" words".toList))) =
      some (pyIntDigits (d :: t)) := by
    unfold searchCount
    exact searchCountFrom_phrase d t hdig
  have htakeN : ((d :: t) ++ (" words".toList)).takeWhile Char.isDigit = d :: t :=
    takeWhile_digits _ _ hdig (by decide)
  have hlonger : searchNumAfter ("longer than ".toList)
      (("longer than ".toList) ++ ((d :: t) ++ (" words".toList))) = some (d :: t) := by
    rw [show ("longer than ".toList : List Char) = 'l' :: ("onger than ".toList) from rfl]
    rw [searchNumAfter_at_match 'l' ("onger than ".toList) _
      (by rw [htakeN]; exact List.cons_ne_nil d t), htakeN]
  have hshorter : searchNumAfter ("shorter than ".toList)
      (("longer than ".toList) ++ ((d :: t) ++ (" words".toList))) = none := by
    rw [show ("shorter than ".toList : List Char) = 's' :: ("horter than ".toList) from rfl]
    rw [searchNumAfter_skip 's' ("horter than ".toList) ("longer than ".toList) _ (by decide)]
    rw [searchNumAfter_skip 's' ("horter than ".toList) (d :: t) _ (hdigbeq 's' (by decide))]
    decide
  have hexact : searchExactly
      (("longer than ".toList) ++ ((d :: t) ++ (" words".toList))) = none := by
    rw [searchExactly_longer_skip, searchExactly_digits_skip (d :: t) (" words".toList) hdig]
    decide
  have hletter : searchLetter
      (("longer than ".toList) ++ ((d :: t) ++ (" words".toList))) = none := by
    rw [searchLetter_longer_skip, searchLetter_digits_skip (d :: t) (" words".toList) hdig]
    decide
  simp only [parse_natural_language_query, hlow, hpal1, hpal2, hcount, hlonger, hshorter,
    hexact, hletter, hvowel, Bool.or_self, Bool.false_eq_true, if_false]
  simp [FilterSet.mk.injEq]

/-- C10 counterexample: the lowercased query `1 word longer than 3 words`
contains the phrase `longer than 3 words`, yet the parser sets
`word_count = 1` (the leftmost count-phrase match wins), not 3. -/
theorem c10_counterexample :
    containsSub ("longer than 3 words".toList)
      (pyLower ("1 word longer than 3 words".toList)) = true ∧
    parse_natural_language_query ("1 word longer than 3 words".toList) =
      some { original := "1 word longer than 3 words".toList,
             parsed_filters := { word_count := some 1, min_length := some 4 } } ∧
    ((1 : Int) ≠ 3) :=
  ⟨by decide, by decide, by decide⟩

/-- C10 witness: the standalone query `longer than 3 words` yields exactly
`word_count = 3` and `min_length = 4`. -/
theorem c10_witness :
    parse_natural_language_query (("longer than ".toList) ++ ['3'] ++ (" words".toList)) =
      some { original := ("longer than ".toList) ++ ['3'] ++ (" words".toList),
             parsed_filters := { word_count := some (pyIntDigits ['3'] : Int),
                                 min_length := some ((pyIntDigits ['3'] : Int) + 1) } } :=
  c10_longer_than_n_words ['3'] (by decide) (by decide)

/-- C3 witness: the query `exactly 4 characters` is matched by the
exactly-pattern with captured digits `4`, and the parsed filter set carries
`min_length = max_length = 4`. -/
theorem c3_witness :
    searchExactly (pyLower ("exactly 4 characters".toList)) = some ['4'] ∧
    (∃ iq, parse_natural_language_query ("exactly 4 characters".toList) = some iq ∧
      iq.parsed_filters.min_length = some (pyIntDigits ['4'] : Int) ∧
      iq.parsed_filters.max_length = some (pyIntDigits ['4'] : Int)) :=
  ⟨by decide, c3_exactly_sets_both_bounds ("exactly 4 characters".toList) ['4'] (by decide)⟩

end StringAnalyzer
